import Mathlib

/-!
Verification of the volt dependency-artifact pipeline: a shallow embedding of
the string sanitization, tarball fetching, archive extraction and tree
compaction logic of src/utils.rs and src/commands/compress.rs, together with
theorems settling the specified properties.

Strings are modelled as lists of characters (`Str`), file contents as lists of
bytes, and the filesystem as a finite list of (path, contents) pairs where a
path is a list of segments.  Network and file-write effects are passed in
explicitly as parameters, so every definition is executable.
-/

namespace Volt

/-- A Rust string, modelled as its character list. -/
abbrev Str : Type := List Char

/-- File contents, modelled as a byte list. -/
abbrev Bytes : Type := List Nat

/-- Embeds Rust `str::replace` for a single-character pattern (the pattern
occurrences are disjoint, so replacement is character-by-character). The
source calls `replace` only with the one-character patterns "/", "@", ".". -/
def replaceChar (pat : Char) (rep : Str) : Str → Str
  | [] => []
  | c :: cs => (if c = pat then rep else [c]) ++ replaceChar pat rep cs

/-- Fuel-indexed worker for `replaceStr`: scans left to right, replacing the
leftmost occurrence of `pat` and continuing after it, exactly as Rust
`str::replace` does for a non-empty pattern. One unit of fuel is spent per
step and each step consumes at least one character, so fuel equal to the
string length never runs out. -/
def replaceFuel (pat rep : Str) : Nat → Str → Str
  | _, [] => []
  | 0, s => s
  | fuel + 1, c :: cs =>
    if pat.isPrefixOf (c :: cs) && !pat.isEmpty then
      rep ++ replaceFuel pat rep fuel ((c :: cs).drop pat.length)
    else
      c :: replaceFuel pat rep fuel cs

/-- Embeds Rust `str::replace` for a general non-empty pattern, used by the
source for the "https" to "http" rewrite of the tarball URL. -/
def replaceStr (pat rep s : Str) : Str := replaceFuel pat rep s.length s

/-- The name sanitization performed at the top of `download_tarball`:
`package.name.replace("/", "__").replace("@", "").replace(".", "_")`. -/
def sanitizeName (name : Str) : Str :=
  replaceChar '.' "_".data (replaceChar '@' "".data (replaceChar '/' "__".data name))

/-- The cache file name built by `download_tarball`:
`format!("{}@{}.tgz", name, version)` applied to the sanitized name. -/
def cacheFileName (name version : Str) : Str :=
  sanitizeName name ++ "@".data ++ version ++ ".tgz".data

/-- The `dist` field of a version record: only the tarball URL is consumed. -/
structure Dist where
  tarball : Str
deriving DecidableEq

/-- One entry of a package's `versions` map. -/
structure VersionRecord where
  dist : Dist
deriving DecidableEq

/-- The package descriptor: registry name plus the versions map, modelled as
an association list from version string to version record. -/
structure Package where
  name : Str
  versions : List (Str × VersionRecord)
deriving DecidableEq

/-- An HTTP response as seen by `download_tarball`: a status code and the
sequence of body chunks yielded by `response.chunk()`. -/
structure NetResponse where
  status : Nat
  chunks : List Bytes
deriving DecidableEq

/-- The bytes that end up in the cache file: for each chunk the source runs
`let _ = file.write(&chunk)`, discarding the result, so a write that reports
`Ok(n)` persists only the first `n` bytes and a write that reports an error
persists nothing — in both cases the loop continues. `writes` lists the
outcome of each write call. -/
def writeChunks : List Bytes → List (Option Nat) → Bytes
  | [], _ => []
  | _ :: _, [] => []
  | c :: cs, w :: ws =>
    (match w with
     | some n => c.take n
     | none => []) ++ writeChunks cs ws

/-- Embeds `download_tarball` from src/utils.rs.  Effects are passed in:
`net` maps a requested URL to `some` response or `none` for a network failure
(on which the source's `.unwrap()` panics, modelled as a `none` result);
`createOk` is the outcome of `File::create` (its `.unwrap()` likewise panics);
`writes` gives each chunk write's outcome.  The source replaces "https" with
"http" in the published URL before requesting it, never inspects the response
status, ignores every write result, and returns the cache path
unconditionally on reaching the end of the loop. -/
def download_tarball (volt_dir : Str) (net : Str → Option NetResponse)
    (createOk : Bool) (writes : List (Option Nat))
    (package : Package) (version : Str) : Option (Str × Bytes) :=
  let name := sanitizeName package.name
  match package.versions.lookup version with
  | none => none
  | some vr =>
    let tarball := replaceStr "https".data "http".data vr.dist.tarball
    match net tarball with
    | none => none
    | some response =>
      let file_name := name ++ "@".data ++ version ++ ".tgz".data
      let path := volt_dir ++ "/".data ++ file_name
      if createOk then some (path, writeChunks response.chunks writes) else none

/-- The separator chosen by `get_basename`: a backslash when `cfg!(windows)`
holds, a forward slash otherwise. -/
def sepChar (windows : Bool) : Char := if windows then '\\' else '/'

/-- Splitting a character list at every occurrence of `sep`, matching the
piece sequence produced by Rust `str::split`; `rsplit` yields the same pieces
reversed. -/
def splitChar (sep : Char) : Str → List Str
  | [] => [[]]
  | c :: cs =>
    match splitChar sep cs with
    | [] => [[c]]
    | p :: ps => if c = sep then [] :: p :: ps else (c :: p) :: ps

/-- Embeds `get_basename` from src/utils.rs: `path.rsplit(sep).next()` is the
head of the reversed piece list; the source matches on the option and falls
back to the whole path in the `None` branch. -/
def get_basename (windows : Bool) (path : Str) : Str :=
  match (splitChar (sepChar windows) path).reverse.head? with
  | some p => p
  | none => path

/-- A filesystem path, as a list of segments. -/
abbrev FsPath : Type := List Str

/-- A filesystem: the finite set of regular files, each a (path, contents)
pair.  A directory exists exactly when some file lies at or below its path. -/
abbrev FS : Type := List (FsPath × Bytes)

/-- One entry of a gzip-compressed tar archive: a path relative to the
unpack destination, and the file's bytes. -/
structure TarEntry where
  path : FsPath
  contents : Bytes
deriving DecidableEq

/-- A tarball as consumed by `Archive::unpack` over a `GzDecoder`: the entry
sequence, plus `failAt = some k` when the stream errors (corrupt gzip data or
an unpack I/O error) after `k` entries have already been written — unpacking
streams entries directly into the destination, so the first `k` entries
persist.  `failAt = none` is a clean stream. -/
structure Tarball where
  entries : List TarEntry
  failAt : Option Nat
deriving DecidableEq

/-- `Path::exists` for a directory or file path in the file-set model. -/
def existsPath (fs : FS) (p : FsPath) : Bool :=
  fs.any (fun e => p.isPrefixOf e.fst)

/-- `tokio::fs::remove_dir_all`: drops every file at or below `p`. -/
def removeDirAll (fs : FS) (p : FsPath) : FS :=
  fs.filter (fun e => ! p.isPrefixOf e.fst)

/-- The files written by unpacking `es` into destination `dest`. -/
def unpackEntries (dest : FsPath) (es : List TarEntry) : FS :=
  es.map (fun e => (dest ++ e.path, e.contents))

/-- The error contexts of `extract_tarball`: "Unable to open tar file" and
"Unable to unpack dependency".  The delete step's own failure mode
("Unable to delete dependency from node_modules") is environmental and the
model treats deletion as succeeding. -/
inductive ExtractErr where
  | openFailed
  | unpackFailed
deriving DecidableEq

/-- Embeds `extract_tarball` from src/utils.rs.  The tar file is opened first
(`tar = none` models an open failure, on which the function returns early via
`?`); only then is any pre-existing `node_modules/<name>` directory
recursively deleted; finally the archive is unpacked directly into that
destination.  Returns the filesystem after the call and the error, if any. -/
def extract_tarball (tar : Option Tarball) (node_modules_dir : FsPath)
    (package : Package) (fs : FS) : FS × Option ExtractErr :=
  match tar with
  | none => (fs, some ExtractErr.openFailed)
  | some t =>
    let dep := node_modules_dir ++ [package.name]
    let fs1 := if existsPath fs dep then removeDirAll fs dep else fs
    match t.failAt with
    | none => (fs1 ++ unpackEntries dep t.entries, none)
    | some k => (fs1 ++ unpackEntries dep (t.entries.take k), some ExtractErr.unpackFailed)

/-- The files of `fs` lying at or below directory `d`. -/
def filesUnder (fs : FS) (d : FsPath) : FS :=
  fs.filter (fun e => d.isPrefixOf e.fst)

/-- The files of `fs` lying outside directory `d`. -/
def filesOutside (fs : FS) (d : FsPath) : FS :=
  fs.filter (fun e => ! d.isPrefixOf e.fst)

/-- The `removables` pattern list declared at the top of `Compress::exec` in
src/commands/compress.rs, transcribed verbatim. -/
def compressRemovables : List Str :=
  ["readme".data, "readme.*".data, ".npmignore".data, "license".data,
   "license.md".data, "licence.md".data, "license.markdown".data,
   "licence.markdown".data, "license-mit".data, "history.md".data,
   "history.markdown".data, ".gitattributes".data, ".gitmodules".data,
   ".travis.yml".data, "binding.gyp".data, "contributing*".data,
   "component.json".data, "composer.json".data, "makefile.*".data,
   "gemfile.*".data, "rakefile.*".data, ".coveralls.yml".data,
   "example.*".data, "changelog".data, "changelog.*".data, "changes".data,
   ".jshintrc".data, "bower.json".data, "*appveyor.yml".data, "*.log".data,
   "*.tlog".data, "*.patch".data, "*.sln".data, "*.pdb".data,
   "*.vcxproj*".data, ".gitignore".data, ".sauce-labs*".data,
   ".vimrc*".data, ".idea".data, "examples".data, "samples".data,
   "test".data, "tests".data, "draft-00".data, "draft-01".data,
   "draft-02".data, "draft-03".data, "draft-04".data, ".eslintrc".data,
   ".eslintrc.*".data, ".jamignore".data, ".jscsrc".data, "*.todo".data,
   "*.md".data, "*.markdown".data, "*.js.map".data, "contributors".data,
   "*.orig".data, "*.rej".data, ".zuul.yml".data, ".editorconfig".data,
   ".npmrc".data, ".jshintignore".data, ".eslintignore".data, ".lint".data,
   ".lintignore".data, "cakefile".data, ".istanbul.yml".data,
   "authors".data, "hyper-schema".data, "mocha.opts".data, ".gradle".data,
   ".tern-port".data, ".gitkeep".data, ".dntrc".data, "*.watchr".data,
   ".jsbeautifyrc".data, "cname".data, "screenshots".data,
   ".dir-locals.el".data, "jsl.conf".data, "jsstyle".data,
   "benchmark".data, "dockerfile".data, "*.nuspec".data, "*.csproj".data,
   "thumbs.db".data, ".ds_store".data, "desktop.ini".data,
   "yarn-error.log".data, "npm-debug.log".data, "wercker.yml".data,
   ".flowconfig".data]

/-- Embeds `Compress::exec` from src/commands/compress.rs: it declares the
`removables` list (never used afterwards), walks every entry of the
node_modules tree binding its path, performs no action in the loop body —
the body is empty in the source — and returns `Ok(())`.  The walk is the
fold that visits each entry and leaves the accumulator untouched. -/
def compressExec (fs : FS) : FS :=
  let _removables := compressRemovables
  fs.foldl (fun acc _entry => acc) fs

/-- The scenario tree of the spec: `./node_modules/left-pad/README.md`,
`./node_modules/left-pad/test/index.js`, `./node_modules/left-pad/index.js`. -/
def leftPadTree : FS :=
  [(["node_modules".data, "left-pad".data, "README.md".data], [82]),
   (["node_modules".data, "left-pad".data, "test".data, "index.js".data], [84]),
   (["node_modules".data, "left-pad".data, "index.js".data], [73])]

/-- Modelled from the spec: the Pack Builder of section 4.4 is absent from the
source (the compress command's walk has an empty body and builds no archive),
so this definition follows the spec's words — it serializes the filtered
dependency tree into one archive in the same tar+gzip format the Extractor
unpacks, each entry's path taken relative to the tree root, streamed without
error. -/
def packTree (treeRoot : FsPath) (fs : FS) : Tarball :=
  { entries :=
      (filesUnder fs treeRoot).map
        (fun e => { path := e.fst.drop treeRoot.length, contents := e.snd }),
    failAt := none }

/-! ### Concrete fixtures used by closed theorems -/

/-- The spec's scenario descriptor: left-pad at 1.3.0 with its published
registry tarball URL. -/
def leftPadPkg : Package :=
  { name := "left-pad".data,
    versions := [("1.3.0".data,
      { dist := { tarball := "https://registry.example/left-pad-1.3.0.tgz".data } })] }

/-- A network in which only the published https URL is reachable. -/
def httpsOnlyNet : Str → Option NetResponse :=
  fun url =>
    if url = "https://registry.example/left-pad-1.3.0.tgz".data then
      some { status := 200, chunks := [[1]] }
    else none

/-- A network that answers every request with a 404 and a two-chunk body. -/
def status404Net : Str → Option NetResponse :=
  fun _ => some { status := 404, chunks := [[1, 2, 3], [4, 5, 6]] }

/-- A network that answers every request with a 200 and a two-chunk body. -/
def leftPadNet : Str → Option NetResponse :=
  fun _ => some { status := 200, chunks := [[10, 20], [30]] }

/-- The node_modules tree root used in concrete extraction scenarios. -/
def nmDir : FsPath := ["node_modules".data]

/-- A clean one-entry tarball: the prior version's payload. -/
def tarballV1 : Tarball := { entries := [{ path := ["old.js".data], contents := [1] }], failAt := none }

/-- A clean two-entry tarball: the newer version's payload. -/
def tarballV2 : Tarball :=
  { entries := [{ path := ["index.js".data], contents := [2] },
                { path := ["util.js".data], contents := [3] }],
    failAt := none }

/-- A corrupt tarball: same entries as `tarballV2` but the stream errors
after the first entry has been written. -/
def corruptTar : Tarball :=
  { entries := [{ path := ["index.js".data], contents := [2] },
                { path := ["util.js".data], contents := [3] }],
    failAt := some 1 }

/-- A pre-existing installed directory for left-pad under the tree root. -/
def oldInstall : FS :=
  [(["node_modules".data, "left-pad".data, "old.js".data], [1])]

/-! ### Helper lemmas: sanitization and cache file names -/

theorem mem_replaceChar {a pat : Char} {rep : Str} :
    ∀ {s : Str}, a ∈ replaceChar pat rep s → a ∈ rep ∨ (a ∈ s ∧ a ≠ pat) := by
  intro s
  induction s with
  | nil => intro h; simp [replaceChar] at h
  | cons c cs ih =>
    intro h
    simp only [replaceChar, List.mem_append] at h
    rcases h with h1 | h2
    · by_cases hc : c = pat
      · rw [if_pos hc] at h1
        exact Or.inl h1
      · rw [if_neg hc] at h1
        simp only [List.mem_singleton] at h1
        subst h1
        exact Or.inr ⟨List.mem_cons_self _ _, hc⟩
    · rcases ih h2 with h3 | ⟨h4, h5⟩
      · exact Or.inl h3
      · exact Or.inr ⟨List.mem_cons_of_mem _ h4, h5⟩

theorem at_not_mem_sanitizeName (n : Str) : '@' ∉ sanitizeName n := by
  intro h
  rcases mem_replaceChar h with h1 | ⟨h2, _⟩
  · exact absurd h1 (by decide)
  · rcases mem_replaceChar h2 with h3 | ⟨_, h5⟩
    · exact absurd h3 (by decide)
    · exact h5 rfl

theorem append_sep_inj :
    ∀ (s1 s2 r1 r2 : Str), '@' ∉ s1 → '@' ∉ s2 →
      s1 ++ '@' :: r1 = s2 ++ '@' :: r2 → s1 = s2 ∧ r1 = r2 := by
  intro s1
  induction s1 with
  | nil =>
    intro s2 r1 r2 h1 h2 h
    cases s2 with
    | nil =>
      simp only [List.nil_append, List.cons.injEq] at h
      exact ⟨rfl, h.2⟩
    | cons d u =>
      simp only [List.nil_append, List.cons_append, List.cons.injEq] at h
      exact absurd (h.1 ▸ List.mem_cons_self d u) (h.1 ▸ h2)
  | cons c t ih =>
    intro s2 r1 r2 h1 h2 h
    cases s2 with
    | nil =>
      simp only [List.cons_append, List.nil_append, List.cons.injEq] at h
      exact absurd (h.1 ▸ List.mem_cons_self c t) (fun hm => h1 (h.1 ▸ hm))
    | cons d u =>
      simp only [List.cons_append, List.cons.injEq] at h
      obtain ⟨he, ht⟩ := h
      have h1' : '@' ∉ t := fun hm => h1 (List.mem_cons_of_mem _ hm)
      have h2' : '@' ∉ u := fun hm => h2 (List.mem_cons_of_mem _ hm)
      obtain ⟨hs, hr⟩ := ih u r1 r2 h1' h2' ht
      exact ⟨by rw [he, hs], hr⟩

/-! ### Helper lemmas: splitting on a separator -/

theorem splitChar_ne_nil (sep : Char) (s : Str) : splitChar sep s ≠ [] := by
  cases s with
  | nil => simp [splitChar]
  | cons c cs =>
    simp only [splitChar]
    rcases hq : splitChar sep cs with _ | ⟨p, ps⟩
    · simp
    · dsimp only
      split <;> simp

theorem splitChar_no_sep {sep : Char} {s : Str} (h : sep ∉ s) :
    splitChar sep s = [s] := by
  induction s with
  | nil => rfl
  | cons c cs ih =>
    have hc : c ≠ sep := fun he => h (he ▸ List.mem_cons_self c cs)
    have hcs : sep ∉ cs := fun hm => h (List.mem_cons_of_mem _ hm)
    simp only [splitChar, ih hcs]
    rw [if_neg hc]

theorem splitChar_length_ge_two {sep : Char} {s : Str} (h : sep ∈ s) :
    2 ≤ (splitChar sep s).length := by
  induction s with
  | nil => simp at h
  | cons c cs ih =>
    simp only [splitChar]
    rcases hq : splitChar sep cs with _ | ⟨p, ps⟩
    · exact absurd hq (splitChar_ne_nil sep cs)
    · dsimp only
      by_cases hc : c = sep
      · rw [if_pos hc]
        simp
      · rw [if_neg hc]
        have hm : sep ∈ cs := by
          rcases List.mem_cons.mp h with h1 | h2
          · exact absurd h1.symm hc
          · exact h2
        have := ih hm
        rw [hq] at this
        simpa using this

theorem getLast?_cons_of_ne_nil {α : Type} (a : α) {l : List α} (h : l ≠ []) :
    (a :: l).getLast? = l.getLast? := by
  cases l with
  | nil => exact absurd rfl h
  | cons b t => exact List.getLast?_cons_cons

theorem splitChar_getLast_append {sep : Char} (xs : Str) {ys : Str} (h : sep ∉ ys) :
    (splitChar sep (xs ++ sep :: ys)).getLast? = some ys := by
  induction xs with
  | nil =>
    simp only [List.nil_append, splitChar, splitChar_no_sep h, if_pos rfl]
    rfl
  | cons x xs ih =>
    simp only [List.cons_append, splitChar]
    rcases hq : splitChar sep (xs ++ sep :: ys) with _ | ⟨p, ps⟩
    · exact absurd hq (splitChar_ne_nil sep _)
    · dsimp only
      have hlen : 2 ≤ (splitChar sep (xs ++ sep :: ys)).length :=
        splitChar_length_ge_two (by simp)
      rw [hq] at hlen
      have hps : ps ≠ [] := by
        intro he
        rw [he] at hlen
        simp at hlen
      have hlast : (p :: ps).getLast? = some ys := by rw [← hq]; exact ih
      by_cases hx : x = sep
      · rw [if_pos hx]
        rw [show ∀ l : List Str, ([] :: p :: l).getLast? = (p :: l).getLast? from
          fun l => List.getLast?_cons_cons]
        exact hlast
      · rw [if_neg hx]
        rw [getLast?_cons_of_ne_nil _ hps]
        rw [getLast?_cons_of_ne_nil _ hps] at hlast
        exact hlast

/-! ### Helper lemmas: paths and the filesystem model -/

theorem isPrefixOf_iff (d p : FsPath) : d.isPrefixOf p = true ↔ ∃ t, p = d ++ t := by
  induction d generalizing p with
  | nil => simp [List.isPrefixOf]
  | cons a as ih =>
    cases p with
    | nil =>
      simp [List.isPrefixOf]
    | cons b bs =>
      simp only [List.isPrefixOf, Bool.and_eq_true, beq_iff_eq, ih, List.cons_append,
        List.cons.injEq]
      constructor
      · rintro ⟨rfl, t, rfl⟩
        exact ⟨t, rfl, rfl⟩
      · rintro ⟨t, rfl, rfl⟩
        exact ⟨rfl, t, rfl⟩

theorem isPrefixOf_append_self (d t : FsPath) : d.isPrefixOf (d ++ t) = true :=
  (isPrefixOf_iff d _).mpr ⟨t, rfl⟩

theorem append_drop_of_isPrefixOf {d p : FsPath} (h : d.isPrefixOf p = true) :
    d ++ p.drop d.length = p := by
  obtain ⟨t, rfl⟩ := (isPrefixOf_iff d p).mp h
  rw [List.drop_left]

theorem filesUnder_append (a b : FS) (d : FsPath) :
    filesUnder (a ++ b) d = filesUnder a d ++ filesUnder b d :=
  List.filter_append a b

theorem filesOutside_append (a b : FS) (d : FsPath) :
    filesOutside (a ++ b) d = filesOutside a d ++ filesOutside b d :=
  List.filter_append a b

theorem filesUnder_clear (fs : FS) (d : FsPath) :
    filesUnder (if existsPath fs d then removeDirAll fs d else fs) d = [] := by
  by_cases h : existsPath fs d
  · rw [if_pos h]
    unfold filesUnder removeDirAll
    rw [List.filter_eq_nil_iff]
    intro e he
    have h2 := (List.mem_filter.mp he).2
    simp only [Bool.not_eq_true'] at h2
    simp [h2]
  · rw [if_neg h]
    unfold existsPath at h
    unfold filesUnder
    rw [List.filter_eq_nil_iff]
    intro e he
    have hany : fs.any (fun e => d.isPrefixOf e.fst) = false :=
      Bool.not_eq_true _ ▸ h
    have := List.any_eq_false.mp hany e he
    simpa using this

theorem filesOutside_clear (fs : FS) (d : FsPath) :
    filesOutside (if existsPath fs d then removeDirAll fs d else fs) d =
      filesOutside fs d := by
  by_cases h : existsPath fs d
  · rw [if_pos h]
    unfold filesOutside removeDirAll
    rw [List.filter_eq_self]
    intro e he
    exact (List.mem_filter.mp he).2
  · rw [if_neg h]

theorem filesUnder_unpackEntries (d : FsPath) (es : List TarEntry) :
    filesUnder (unpackEntries d es) d = unpackEntries d es := by
  unfold filesUnder unpackEntries
  rw [List.filter_eq_self]
  intro e he
  obtain ⟨a, _, rfl⟩ := List.mem_map.mp he
  exact isPrefixOf_append_self d a.path

theorem filesOutside_unpackEntries (d : FsPath) (es : List TarEntry) :
    filesOutside (unpackEntries d es) d = [] := by
  unfold filesOutside unpackEntries
  rw [List.filter_eq_nil_iff]
  intro e he
  obtain ⟨a, _, rfl⟩ := List.mem_map.mp he
  simp [isPrefixOf_append_self d a.path]

/-! ### Helper lemmas: extraction outcomes -/

theorem extract_tarball_success (t : Tarball) (nmd : FsPath) (pkg : Package)
    (fs : FS) (h : t.failAt = none) :
    (extract_tarball (some t) nmd pkg fs).2 = none ∧
    filesUnder (extract_tarball (some t) nmd pkg fs).1 (nmd ++ [pkg.name]) =
      unpackEntries (nmd ++ [pkg.name]) t.entries ∧
    filesOutside (extract_tarball (some t) nmd pkg fs).1 (nmd ++ [pkg.name]) =
      filesOutside fs (nmd ++ [pkg.name]) := by
  simp only [extract_tarball, h]
  refine ⟨trivial, ?_, ?_⟩
  · rw [filesUnder_append, filesUnder_clear, filesUnder_unpackEntries]
    simp
  · rw [filesOutside_append, filesOutside_clear, filesOutside_unpackEntries]
    simp

theorem extract_tarball_failed (t : Tarball) (k : Nat) (nmd : FsPath)
    (pkg : Package) (fs : FS) (h : t.failAt = some k) :
    (extract_tarball (some t) nmd pkg fs).2 = some ExtractErr.unpackFailed ∧
    filesUnder (extract_tarball (some t) nmd pkg fs).1 (nmd ++ [pkg.name]) =
      unpackEntries (nmd ++ [pkg.name]) (t.entries.take k) ∧
    filesOutside (extract_tarball (some t) nmd pkg fs).1 (nmd ++ [pkg.name]) =
      filesOutside fs (nmd ++ [pkg.name]) := by
  simp only [extract_tarball, h]
  refine ⟨trivial, ?_, ?_⟩
  · rw [filesUnder_append, filesUnder_clear, filesUnder_unpackEntries]
    simp
  · rw [filesOutside_append, filesOutside_clear, filesOutside_unpackEntries]
    simp

/-! ### Helper lemmas: compression and packing -/

theorem foldl_keep {α β : Type} (l : List β) (acc : α) :
    l.foldl (fun a _ => a) acc = acc := by
  induction l generalizing acc with
  | nil => rfl
  | cons b bs ih => simp [List.foldl, ih]

theorem writeChunks_full (cs : List Bytes) :
    writeChunks cs (cs.map (fun c => some c.length)) = cs.flatten := by
  induction cs with
  | nil => rfl
  | cons c cs ih => simp [writeChunks, List.take_length, ih]

/-! ### Claim theorems -/

/-- Claim C1: the claim states that the compress command deletes exactly the
entries whose base name matches an ignore pattern, reducing the scenario tree
to only index.js.  The source's walk body is empty, so the command deletes
nothing: every tree is returned unchanged, and in the scenario tree README.md
is still present afterwards. -/
theorem compress_walk_deletes_nothing :
    (∀ fs : FS, compressExec fs = fs) ∧
    compressExec leftPadTree = leftPadTree ∧
    (["node_modules".data, "left-pad".data, "README.md".data], ([82] : Bytes)) ∈
      compressExec leftPadTree := by
  have hall : ∀ fs : FS, compressExec fs = fs := by
    intro fs
    unfold compressExec
    exact foldl_keep fs fs
  refine ⟨hall, hall _, ?_⟩
  rw [hall]
  simp [leftPadTree]

/-- Claim C2 counterexample: the distinct (name, version) pairs
("a.b", "1.0.0") and ("a_b", "1.0.0") produce the same cache file name
"a_b@1.0.0.tgz", so the sanitization scheme is not collision-free. -/
theorem cacheFileName_collision :
    (("a.b".data, "1.0.0".data) ≠ (("a_b".data : Str), ("1.0.0".data : Str))) ∧
    cacheFileName "a.b".data "1.0.0".data = cacheFileName "a_b".data "1.0.0".data :=
  ⟨by decide, by decide⟩

/-- Claim C2 (amended): the cache file name determines the sanitized name and
the version uniquely — equal file names force equal sanitized names and equal
versions — so distinct pairs collide exactly when their names sanitize to the
same string; sanitization itself is not injective. -/
theorem cacheFileName_determines (n1 v1 n2 v2 : Str)
    (h : cacheFileName n1 v1 = cacheFileName n2 v2) :
    sanitizeName n1 = sanitizeName n2 ∧ v1 = v2 := by
  have e : ∀ n v : Str, cacheFileName n v = sanitizeName n ++ '@' :: (v ++ ".tgz".data) := by
    intro n v
    simp [cacheFileName, List.append_assoc]
  rw [e, e] at h
  obtain ⟨hs, hv⟩ :=
    append_sep_inj _ _ _ _ (at_not_mem_sanitizeName n1) (at_not_mem_sanitizeName n2) h
  exact ⟨hs, List.append_cancel_right hv⟩

/-- Claim C2 witness: the amended theorem applied at a concrete input. -/
theorem cacheFileName_determines_witness :
    sanitizeName "left-pad".data = sanitizeName "left-pad".data ∧
    "1.3.0".data = "1.3.0".data :=
  cacheFileName_determines "left-pad".data "1.3.0".data "left-pad".data "1.3.0".data rfl

/-- Claim C3: the fetcher does not request the published URL: it rewrites
"https" to "http" before fetching, so the requested URL differs from
`dist.tarball`, and a server reachable only at the published secure URL is
never contacted (the model returns none for the source's unwrap panic). -/
theorem fetch_rewrites_https_to_http :
    replaceStr "https".data "http".data "https://registry.example/left-pad-1.3.0.tgz".data
        = "http://registry.example/left-pad-1.3.0.tgz".data ∧
    replaceStr "https".data "http".data "https://registry.example/left-pad-1.3.0.tgz".data
        ≠ "https://registry.example/left-pad-1.3.0.tgz".data ∧
    download_tarball "/cache".data httpsOnlyNet true [some 1] leftPadPkg "1.3.0".data
        = none :=
  ⟨by decide, by decide, by decide⟩

/-- Claim C4: with two successful extractions of the same package (any two
tarball payloads, so same or different version), the second run deletes the
first install before unpacking: afterwards the installed directory holds
exactly the second tarball's contents, and files outside it are those of the
original tree — exactly one install, no residue. -/
theorem extract_replace_semantics (t1 t2 : Tarball) (nmd : FsPath) (pkg : Package)
    (fs : FS) (h1 : t1.failAt = none) (h2 : t2.failAt = none) :
    (extract_tarball (some t2) nmd pkg (extract_tarball (some t1) nmd pkg fs).1).2 = none ∧
    filesUnder (extract_tarball (some t2) nmd pkg (extract_tarball (some t1) nmd pkg fs).1).1
        (nmd ++ [pkg.name]) = unpackEntries (nmd ++ [pkg.name]) t2.entries ∧
    filesOutside (extract_tarball (some t2) nmd pkg (extract_tarball (some t1) nmd pkg fs).1).1
        (nmd ++ [pkg.name]) = filesOutside fs (nmd ++ [pkg.name]) := by
  obtain ⟨_, _, o1⟩ := extract_tarball_success t1 nmd pkg fs h1
  obtain ⟨e2, u2, o2⟩ :=
    extract_tarball_success t2 nmd pkg (extract_tarball (some t1) nmd pkg fs).1 h2
  exact ⟨e2, u2, o2.trans o1⟩

/-- Claim C4 witness: replace semantics at a concrete pair of extractions. -/
theorem extract_replace_semantics_witness :
    (extract_tarball (some tarballV2) nmDir leftPadPkg
        (extract_tarball (some tarballV1) nmDir leftPadPkg []).1).2 = none ∧
    filesUnder (extract_tarball (some tarballV2) nmDir leftPadPkg
        (extract_tarball (some tarballV1) nmDir leftPadPkg []).1).1
        (nmDir ++ [leftPadPkg.name]) =
      unpackEntries (nmDir ++ [leftPadPkg.name]) tarballV2.entries ∧
    filesOutside (extract_tarball (some tarballV2) nmDir leftPadPkg
        (extract_tarball (some tarballV1) nmDir leftPadPkg []).1).1
        (nmDir ++ [leftPadPkg.name]) =
      filesOutside ([] : FS) (nmDir ++ [leftPadPkg.name]) :=
  extract_replace_semantics tarballV1 tarballV2 nmDir leftPadPkg [] rfl rfl

/-- Claim C5 counterexample: extracting a corrupt tarball over an existing
install fails, yet the installed directory afterwards is neither empty, nor
the full new contents, nor the old install — a half-written directory
remains, so visibility is not all-or-nothing. -/
theorem extract_partial_dir_cex :
    (extract_tarball (some corruptTar) nmDir leftPadPkg oldInstall).2 ≠ none ∧
    filesUnder (extract_tarball (some corruptTar) nmDir leftPadPkg oldInstall).1
        (nmDir ++ [leftPadPkg.name]) ≠ [] ∧
    filesUnder (extract_tarball (some corruptTar) nmDir leftPadPkg oldInstall).1
        (nmDir ++ [leftPadPkg.name]) ≠
      unpackEntries (nmDir ++ [leftPadPkg.name]) corruptTar.entries ∧
    filesUnder (extract_tarball (some corruptTar) nmDir leftPadPkg oldInstall).1
        (nmDir ++ [leftPadPkg.name]) ≠
      filesUnder oldInstall (nmDir ++ [leftPadPkg.name]) := by
  refine ⟨by decide, by decide, by decide, by decide⟩

/-- Claim C5 (amended): a failure while unpacking reports an error but leaves
the installed directory holding exactly the entries already streamed (the
first k of the tarball), with the prior install gone — a partially-written
directory, not all-or-nothing visibility; only an open failure leaves the
tree untouched. -/
theorem extract_unpack_failure_partial (t : Tarball) (k : Nat) (nmd : FsPath)
    (pkg : Package) (fs : FS) (h : t.failAt = some k) :
    (extract_tarball (some t) nmd pkg fs).2 = some ExtractErr.unpackFailed ∧
    filesUnder (extract_tarball (some t) nmd pkg fs).1 (nmd ++ [pkg.name]) =
      unpackEntries (nmd ++ [pkg.name]) (t.entries.take k) ∧
    filesOutside (extract_tarball (some t) nmd pkg fs).1 (nmd ++ [pkg.name]) =
      filesOutside fs (nmd ++ [pkg.name]) :=
  extract_tarball_failed t k nmd pkg fs h

/-- Claim C5 witness: the amended theorem at the concrete corrupt tarball. -/
theorem extract_unpack_failure_partial_witness :
    (extract_tarball (some corruptTar) nmDir leftPadPkg oldInstall).2 =
      some ExtractErr.unpackFailed ∧
    filesUnder (extract_tarball (some corruptTar) nmDir leftPadPkg oldInstall).1
        (nmDir ++ [leftPadPkg.name]) =
      unpackEntries (nmDir ++ [leftPadPkg.name]) (corruptTar.entries.take 1) ∧
    filesOutside (extract_tarball (some corruptTar) nmDir leftPadPkg oldInstall).1
        (nmDir ++ [leftPadPkg.name]) =
      filesOutside oldInstall (nmDir ++ [leftPadPkg.name]) :=
  extract_unpack_failure_partial corruptTar 1 nmDir leftPadPkg oldInstall rfl

/-- Claim C6: a non-success HTTP status and a failed chunk write neither
fail the operation nor are distinguished: with a 404 response whose second
chunk write errors, the fetcher still returns the cache path as success and
the file holds only the first chunk — a silently truncated file. -/
theorem download_ignores_failures :
    download_tarball "/cache".data status404Net true [some 3, none] leftPadPkg "1.3.0".data
        = some ("/cache/left-pad@1.3.0.tgz".data, [1, 2, 3]) ∧
    ([1, 2, 3] : Bytes) ≠ [1, 2, 3] ++ [4, 5, 6] :=
  ⟨by decide, by decide⟩

/-- Claim C7: packing the filtered tree (Pack Builder modelled from the spec,
the source containing no packing code) and unpacking the result with the
Extractor's unpack logic at the tree root reproduces the filtered tree's file
set and byte contents exactly. -/
theorem pack_unpack_roundtrip (treeRoot : FsPath) (fs : FS) :
    unpackEntries treeRoot (packTree treeRoot fs).entries = filesUnder fs treeRoot := by
  unfold packTree unpackEntries
  rw [List.map_map]
  have h : ∀ e ∈ filesUnder fs treeRoot,
      ((fun e : TarEntry => (treeRoot ++ e.path, e.contents)) ∘
        (fun e : FsPath × Bytes =>
          ({ path := e.fst.drop treeRoot.length, contents := e.snd } : TarEntry))) e
        = id e := by
    intro e he
    have hp : treeRoot.isPrefixOf e.fst = true := by
      unfold filesUnder at he
      exact (List.mem_filter.mp he).2
    simp only [Function.comp, id]
    rw [Prod.ext_iff]
    exact ⟨append_drop_of_isPrefixOf hp, rfl⟩
  rw [List.map_congr_left h, List.map_id]

/-- Claim C8: with the version present, the response retrieved and every
chunk write succeeding in full, the fetcher writes the concatenated chunk
bytes to the cache file named from the sanitized name, an at sign, the
version and the .tgz suffix, and returns that file's path. -/
theorem download_writes_named_cache_file (volt_dir : Str)
    (net : Str → Option NetResponse) (package : Package) (version : Str)
    (vr : VersionRecord) (resp : NetResponse)
    (hv : package.versions.lookup version = some vr)
    (hn : net (replaceStr "https".data "http".data vr.dist.tarball) = some resp) :
    download_tarball volt_dir net true (resp.chunks.map (fun c => some c.length))
        package version
      = some (volt_dir ++ "/".data ++ cacheFileName package.name version,
          resp.chunks.flatten) := by
  simp only [download_tarball, hv, hn, if_true]
  rw [writeChunks_full]
  rfl

/-- Claim C8 witness: the left-pad scenario produces the cache file
/cache/left-pad@1.3.0.tgz holding all downloaded bytes. -/
theorem download_writes_named_cache_file_witness :
    download_tarball "/cache".data leftPadNet true
        ([[10, 20], [30]].map (fun c : Bytes => some c.length)) leftPadPkg "1.3.0".data
      = some ("/cache/left-pad@1.3.0.tgz".data, [10, 20, 30]) := by
  have h := download_writes_named_cache_file "/cache".data leftPadNet leftPadPkg
      "1.3.0".data
      { dist := { tarball := "https://registry.example/left-pad-1.3.0.tgz".data } }
      { status := 200, chunks := [[10, 20], [30]] } (by decide) rfl
  exact h.trans (by decide)

/-- Claim C9: `get_basename` is total — the rsplit piece list is never empty,
so the None branch is unreachable; on a path without the separator it returns
the whole path, and on any path it returns the suffix after the last
separator. -/
theorem get_basename_correct (w : Bool) :
    (∀ path : Str, (splitChar (sepChar w) path).reverse.head? ≠ none) ∧
    (∀ path : Str, sepChar w ∉ path → get_basename w path = path) ∧
    (∀ xs ys : Str, sepChar w ∉ ys → get_basename w (xs ++ sepChar w :: ys) = ys) := by
  refine ⟨?_, ?_, ?_⟩
  · intro path h
    rcases hq : (splitChar (sepChar w) path).reverse with _ | ⟨p, ps⟩
    · exact splitChar_ne_nil _ path (List.reverse_eq_nil_iff.mp hq)
    · rw [hq] at h
      simp at h
  · intro path h
    unfold get_basename
    rw [splitChar_no_sep h]
    rfl
  · intro xs ys h
    unfold get_basename
    rw [List.head?_reverse, splitChar_getLast_append xs h]

/-- Claim C9 witness: the theorem applied at a concrete unix path. -/
theorem get_basename_correct_witness :
    get_basename false ("dir".data ++ sepChar false :: "file.txt".data) = "file.txt".data :=
  (get_basename_correct false).2.2 "dir".data "file.txt".data (by decide)

/-- Claim C10: when the tarball cannot be opened, `extract_tarball` reports
the open error and returns the filesystem unchanged — in particular any
pre-existing installed directory is untouched, because the open happens
before the delete. -/
theorem extract_open_failure_preserves_fs (nmd : FsPath) (pkg : Package) (fs : FS) :
    extract_tarball none nmd pkg fs = (fs, some ExtractErr.openFailed) := rfl

end Volt
